import Mathlib

/-!
Verification of the dataflow-graph renderer in `src/main.rs` (the `flux`
repository).  The document model (`Data`, `Function`, `Graph`), the owner
roster and colour table built at the top of `render`, and the line-by-line
output of `render` are embedded as executable Lean definitions; the
theorems below settle the specification claims about them.

The Rust `render` iterates the `colours : HashMap<String, String>` when it
emits the legend; a `HashMap`'s iteration order is unspecified, so the
embedding passes the iteration order explicitly as `legendEntries`, a list
of key/value pairs that (for a real run) is some permutation of the map's
entries.

String comparison: Rust's `Vec::<String>::sort` orders strings
lexicographically by bytes, which for UTF-8 coincides with lexicographic
order on code points, i.e. with Lean's `String.le` (and with Mathlib's
linear order on `String`; the two are bridged by `strLe_iff` below).  The
embedding uses core's structural `String.le`, which the kernel can
evaluate on concrete strings.
-/

namespace Flux

/-- A piece of data in a dataflow graph (`struct Data` in main.rs). -/
structure Data where
  name : String
  source : String
  description : Option String
deriving DecidableEq

/-- A process in a dataflow graph (`struct Function` in main.rs). -/
structure Function where
  name : String
  owner : String
  inputs : List String
  outputs : List String
deriving DecidableEq

/-- A dataflow graph (`struct Graph` in main.rs). -/
structure Graph where
  data : List Data
  functions : List Function
deriving DecidableEq

/-- `NUM_COLOURS` in `render`: size of the `dark28` palette. -/
def NUM_COLOURS : Nat := 8

/-- Adjacent-duplicate removal, as performed by `owners.dedup()` in
`render` (`Vec::dedup` removes consecutive repeated elements, keeping
the first of each run). -/
def dedupAdj : List String → List String
  | [] => []
  | [a] => [a]
  | a :: b :: rest => if a = b then dedupAdj (b :: rest) else a :: dedupAdj (b :: rest)

/-- The owner roster built at the top of `render`: every function's
`owner`, sorted (`owners.sort()`), then adjacent-deduplicated
(`owners.dedup()`). -/
def roster (g : Graph) : List String :=
  dedupAdj (@List.insertionSort String (fun a b => String.le a b)
    (fun a b => String.decLE a b) (g.functions.map Function.owner))

/-- The `colours : HashMap<String, String>` built in `render`, as an
association list in roster order: owner at roster position `i` maps to
the decimal string of `i % NUM_COLOURS + 1`. -/
def colours (g : Graph) : List (String × String) :=
  (roster g).enum.map (fun p => (p.2, toString (p.1 % NUM_COLOURS + 1)))

/-- `struct DotBuilder`: an accumulated list of output lines. -/
structure DotBuilder where
  lines : List String
deriving DecidableEq

/-- `DotBuilder::add`. -/
def DotBuilder.add (b : DotBuilder) (line : String) : DotBuilder :=
  ⟨b.lines ++ [line]⟩

/-- `Node::to_string`: each attribute is formatted as `key=value`, the
formatted strings are sorted, and (as written in the source) joined with
`"="`; the result is `name[attrs];`. -/
def nodeToString (name : String) (attributes : List (String × String)) : String :=
  let attrs := @List.insertionSort String (fun a b => String.le a b)
    (fun a b => String.decLE a b) (attributes.map (fun kv => kv.1 ++ "=" ++ kv.2))
  name ++ "[" ++ String.intercalate "=" attrs ++ "];"

/-- The node declaration `render` emits for a function named `fname`
whose owner has colour string `c`: built with `Node::new(..)
.shape(Ellipse).style(Filled).fillcolor(Dark28, c)` and printed by
`Node::to_string` (`fillcolor` wraps its value as `"/dark28/c"`). -/
def functionNodeLine (fname c : String) : String :=
  nodeToString fname
    [("shape", "ellipse"), ("style", "filled"), ("fillcolor", "\"/dark28/" ++ c ++ "\"")]

/-- The node declaration `render` emits for a data artifact. -/
def dataLine (d : Data) : String :=
  d.name ++ " [shape=box]"

/-- The body of the `for f in &graph.functions` loop in `render`:
look the owner's colour up in `colours` (a panic — modelled as `none` —
if absent), add the styled node line, then one edge line per input and
one per output. -/
def addFunction (cs : List (String × String)) (b : DotBuilder) (f : Function) :
    Option DotBuilder :=
  (cs.lookup f.owner).map (fun c =>
    let b := b.add (functionNodeLine f.name c)
    let b := f.inputs.foldl (fun b i => b.add (i ++ " -> " ++ f.name)) b
    f.outputs.foldl (fun b o => b.add (f.name ++ " -> " ++ o)) b)

/-- The legend node line `render` emits for a `colours` entry `p`
(owner, colour string): note the fill colour is the bare colour string,
not a colour-scheme reference. -/
def legendNodeLine (p : String × String) : String :=
  "legend_" ++ p.1 ++ " [label=" ++ p.1 ++ ",style=filled,fillcolor=" ++ p.2 ++ "]"

/-- The body of the `for (name, color) in &colours` legend loop:
add the legend node line and extend the invisible-chain string
(prepending `"->"` when the chain is nonempty). -/
def legendStep (s : DotBuilder × String) (p : String × String) : DotBuilder × String :=
  (s.1.add (legendNodeLine p),
   (if s.2 = "" then s.2 else s.2 ++ "->") ++ "legend_" ++ p.1)

/-- `render` from main.rs, producing the list of output lines.  The
legend loop iterates the `colours` hash map; its unspecified iteration
order is the `legendEntries` parameter (a permutation of `colours g` on a
real run).  A colour-lookup panic is modelled as `none`.  The byte
sequences `\x7b` and `\x7d` are literal braces: the Rust source passes
`"digraph G {{"` etc. to `DotBuilder::add` as plain string literals, so
the doubled braces are emitted verbatim. -/
def render (g : Graph) (legendEntries : List (String × String)) : Option (List String) :=
  let cs := colours g
  let b : DotBuilder := ⟨[]⟩
  let b := b.add "digraph G \x7b\x7b"
  let b := g.data.foldl (fun b d => b.add (dataLine d)) b
  (g.functions.foldlM (addFunction cs) b).map (fun b =>
    let b := b.add "subgraph cluster_legend \x7b\x7b"
    let b := b.add "label=\"Legend\""
    let b := b.add "rankdir=TB"
    let s := legendEntries.foldl legendStep (b, "")
    let b := s.1.add (s.2 ++ "[style=invis]")
    let b := b.add "\x7d\x7d"
    let b := b.add "\x7d\x7d"
    b.lines)

/-- The colour string `render` uses for function `f` of graph `g`. -/
def colourOf (g : Graph) (f : Function) : String :=
  ((colours g).lookup f.owner).getD ""

/-- The edge lines emitted for function `f`: inputs then outputs. -/
def edgeLines (f : Function) : List String :=
  f.inputs.map (fun i => i ++ " -> " ++ f.name)
    ++ f.outputs.map (fun o => f.name ++ " -> " ++ o)

/-- The block of lines emitted for function `f`: its node line then its
edge lines. -/
def funSection (g : Graph) (f : Function) : List String :=
  functionNodeLine f.name (colourOf g f) :: edgeLines f

/-- Everything `render` emits before the legend node lines. -/
def headerLines (g : Graph) : List String :=
  "digraph G \x7b\x7b" :: (g.data.map dataLine
    ++ (g.functions.map (funSection g)).flatten
    ++ ["subgraph cluster_legend \x7b\x7b", "label=\"Legend\"", "rankdir=TB"])

/-- `"->" ++ piece` for each piece: the tail of the invisible chain. -/
def joinTail : List String → String
  | [] => ""
  | x :: rest => "->" ++ (x ++ joinTail rest)

/-- Pieces joined by `"->"`: `joinTail` inserts one arrow per element, so
`joinArrows pieces` holds exactly `pieces.length - 1` arrow separators. -/
def joinArrows : List String → String
  | [] => ""
  | x :: rest => x ++ joinTail rest

/-- The legend identifiers chained by the invisible edge statement. -/
def chainPieces (e : List (String × String)) : List String :=
  e.map (fun p => "legend_" ++ p.1)

/-- The invisible chain statement emitted at the end of the legend. -/
def chainLine (e : List (String × String)) : String :=
  joinArrows (chainPieces e) ++ "[style=invis]"

/-- Number of (disjoint, left-to-right) occurrences of the two-character
arrow `->` in a character list. -/
def countArrowsAux : List Char → Nat
  | [] => 0
  | [_] => 0
  | a :: b :: rest =>
    if a = '-' ∧ b = '>' then countArrowsAux rest + 1 else countArrowsAux (b :: rest)

/-- Number of `->` arrows occurring in a string. -/
def countArrows (s : String) : Nat :=
  countArrowsAux s.data

/-- A string none of whose characters is `'-'`. -/
def NoDash (s : String) : Prop :=
  ∀ c ∈ s.data, c ≠ '-'

/- ### Concrete graphs used to instantiate the claim theorems -/

/-- Two functions with owners `"b"` and `"a"`. -/
def gC1 : Graph := ⟨[], [⟨"f1", "b", [], []⟩, ⟨"f2", "a", [], []⟩]⟩

/-- Owners `{"b", "a"}`, in one order, no duplicates. -/
def gC2a : Graph := ⟨[], [⟨"f", "b", [], []⟩, ⟨"g", "a", [], []⟩]⟩

/-- Owners `{"a", "b"}`, other order, with a duplicate and extra data. -/
def gC2b : Graph :=
  ⟨[⟨"D", "s", none⟩], [⟨"h", "a", [], []⟩, ⟨"i", "b", [], []⟩, ⟨"j", "a", [], []⟩]⟩

/-- A single function `F` owned by `svc1`. -/
def gC3 : Graph := ⟨[], [⟨"F", "svc1", [], []⟩]⟩

/-- The empty graph. -/
def gC4 : Graph := ⟨[], []⟩

/-- Two functions with distinct owners `"a"` and `"b"`. -/
def gC5 : Graph := ⟨[], [⟨"f", "a", [], []⟩, ⟨"g", "b", [], []⟩]⟩

/-- One data artifact `A`; function `F` reads `A` and writes the
undeclared identifier `X`. -/
def gC6 : Graph := ⟨[⟨"A", "s", none⟩], [⟨"F", "svc1", ["A"], ["X"]⟩]⟩

/-- The function of `gC6`. -/
def fC6 : Function := ⟨"F", "svc1", ["A"], ["X"]⟩

/-- The full output of `render gC6 [("svc1", "1")]`. -/
def lsC6 : List String :=
  ["digraph G \x7b\x7b", "A [shape=box]",
   "F[fillcolor=\"/dark28/1\"=shape=ellipse=style=filled];",
   "A -> F", "F -> X",
   "subgraph cluster_legend \x7b\x7b", "label=\"Legend\"", "rankdir=TB",
   "legend_svc1 [label=svc1,style=filled,fillcolor=1]",
   "legend_svc1[style=invis]", "\x7d\x7d", "\x7d\x7d"]

/-- A single function `G1` owned by `svc1`. -/
def gC7 : Graph := ⟨[], [⟨"G1", "svc1", [], []⟩]⟩

/-- Two functions with distinct owners `"a"` and `"b"`. -/
def gC8 : Graph := ⟨[], [⟨"f", "a", [], []⟩, ⟨"g", "b", [], []⟩]⟩

/-- The full output of `render gC8 [("b", "2"), ("a", "1")]` (legend
iterated in the non-sorted order). -/
def lsC8 : List String :=
  ["digraph G \x7b\x7b",
   "f[fillcolor=\"/dark28/1\"=shape=ellipse=style=filled];",
   "g[fillcolor=\"/dark28/2\"=shape=ellipse=style=filled];",
   "subgraph cluster_legend \x7b\x7b", "label=\"Legend\"", "rankdir=TB",
   "legend_b [label=b,style=filled,fillcolor=2]",
   "legend_a [label=a,style=filled,fillcolor=1]",
   "legend_b->legend_a[style=invis]", "\x7d\x7d", "\x7d\x7d"]

/-- A single function `F` owned by `svc1`. -/
def gC10 : Graph := ⟨[], [⟨"F", "svc1", [], []⟩]⟩

/- ### Bridging core's `String.le` with Mathlib's order on `String` -/

/-- Core's structural `String.le` (used in the embedding because it is
kernel-reducible) agrees with Mathlib's linear order on `String`. -/
theorem strLe_iff (a b : String) : String.le a b ↔ a ≤ b := by
  constructor
  · intro h hlt
    exact h ((List.lt_iff_lex_lt b.data a.data).mpr (String.lt_iff_toList_lt.mp hlt))
  · intro h hlt
    exact h (String.lt_iff_toList_lt.mpr ((List.lt_iff_lex_lt b.data a.data).mp hlt))

theorem strLe_total (a b : String) : String.le a b ∨ String.le b a := by
  rcases le_total a b with h | h
  · exact Or.inl ((strLe_iff a b).mpr h)
  · exact Or.inr ((strLe_iff b a).mpr h)

theorem strLe_trans (a b c : String) (h₁ : String.le a b) (h₂ : String.le b c) :
    String.le a c :=
  (strLe_iff a c).mpr (le_trans ((strLe_iff a b).mp h₁) ((strLe_iff b c).mp h₂))

/- ### Lemmas about `dedupAdj` and the roster -/

theorem dedupAdj_cons_cons_eq (a b : String) (rest : List String) (h : a = b) :
    dedupAdj (a :: b :: rest) = dedupAdj (b :: rest) := by
  simp [dedupAdj, h]

theorem dedupAdj_cons_cons_ne (a b : String) (rest : List String) (h : a ≠ b) :
    dedupAdj (a :: b :: rest) = a :: dedupAdj (b :: rest) := by
  simp [dedupAdj, h]

theorem mem_dedupAdj : ∀ (l : List String) (x : String), x ∈ dedupAdj l ↔ x ∈ l := by
  intro l
  induction l with
  | nil => intro x; simp [dedupAdj]
  | cons a tl ih =>
    intro x
    cases tl with
    | nil => simp [dedupAdj]
    | cons b rest =>
      by_cases hab : a = b
      · subst hab
        rw [dedupAdj_cons_cons_eq a a rest rfl, ih x]
        simp only [List.mem_cons]
        tauto
      · rw [dedupAdj_cons_cons_ne a b rest hab, List.mem_cons, List.mem_cons, ih x]

theorem dedupAdj_cons_head : ∀ (l : List String) (a : String),
    ∃ t, dedupAdj (a :: l) = a :: t := by
  intro l
  induction l with
  | nil => intro a; exact ⟨[], rfl⟩
  | cons b rest ih =>
    intro a
    by_cases hab : a = b
    · obtain ⟨t, ht⟩ := ih b
      exact ⟨t, by rw [dedupAdj_cons_cons_eq a b rest hab, ht, hab]⟩
    · exact ⟨dedupAdj (b :: rest), dedupAdj_cons_cons_ne a b rest hab⟩

theorem chain_lt_dedupAdj : ∀ (l : List String),
    List.Chain' (fun a b => String.le a b) l →
      List.Chain' (fun a b => a < b) (dedupAdj l) := by
  intro l
  induction l with
  | nil => intro _; simp [dedupAdj]
  | cons a tl ih =>
    intro h
    cases tl with
    | nil => simp [dedupAdj]
    | cons b rest =>
      rw [List.chain'_cons] at h
      obtain ⟨hab, hrest⟩ := h
      by_cases heq : a = b
      · rw [dedupAdj_cons_cons_eq a b rest heq]
        exact ih hrest
      · obtain ⟨t, ht⟩ := dedupAdj_cons_head rest b
        have hc := ih hrest
        rw [ht] at hc
        rw [dedupAdj_cons_cons_ne a b rest heq, ht, List.chain'_cons]
        exact ⟨lt_of_le_of_ne ((strLe_iff a b).mp hab) heq, hc⟩

theorem roster_chain_lt (g : Graph) :
    List.Chain' (fun a b => a < b) (roster g) := by
  apply chain_lt_dedupAdj
  haveI : IsTotal String (fun a b => String.le a b) := ⟨strLe_total⟩
  haveI : IsTrans String (fun a b => String.le a b) := ⟨strLe_trans⟩
  rw [List.chain'_iff_pairwise]
  exact List.sorted_insertionSort _ _

theorem roster_sorted (g : Graph) :
    List.Sorted (fun a b => a ≤ b) (roster g) := by
  have h := roster_chain_lt g
  rw [List.chain'_iff_pairwise] at h
  exact h.imp (fun hlt => le_of_lt hlt)

theorem roster_nodup (g : Graph) : (roster g).Nodup := by
  have h := roster_chain_lt g
  rw [List.chain'_iff_pairwise] at h
  exact h.imp (fun hlt => ne_of_lt hlt)

theorem mem_roster (g : Graph) (o : String) :
    o ∈ roster g ↔ o ∈ g.functions.map Function.owner := by
  rw [roster, mem_dedupAdj]
  exact List.Perm.mem_iff (List.perm_insertionSort _ _)

theorem roster_eq_of_mem_iff (g₁ g₂ : Graph)
    (h : ∀ o, o ∈ g₁.functions.map Function.owner ↔ o ∈ g₂.functions.map Function.owner) :
    roster g₁ = roster g₂ := by
  have hmem : ∀ o, o ∈ roster g₁ ↔ o ∈ roster g₂ := by
    intro o
    rw [mem_roster, mem_roster]
    exact h o
  have hperm : (roster g₁).Perm (roster g₂) := by
    apply List.perm_of_nodup_nodup_toFinset_eq (roster_nodup g₁) (roster_nodup g₂)
    apply Finset.ext
    intro o
    simp only [List.mem_toFinset]
    exact hmem o
  exact List.eq_of_perm_of_sorted hperm (roster_sorted g₁) (roster_sorted g₂)

theorem roster_length_eq_card (g : Graph) :
    (roster g).length = (g.functions.map Function.owner).toFinset.card := by
  have hfin : (roster g).toFinset = (g.functions.map Function.owner).toFinset := by
    apply Finset.ext
    intro o
    simp only [List.mem_toFinset]
    exact mem_roster g o
  rw [← List.toFinset_card_of_nodup (roster_nodup g), hfin]

/- ### Lemmas about the colour table -/

theorem colours_map_fst (g : Graph) : (colours g).map Prod.fst = roster g := by
  rw [colours, List.map_map]
  have : (Prod.fst ∘ fun p : Nat × String => (p.2, toString (p.1 % NUM_COLOURS + 1)))
      = Prod.snd := by
    funext p
    rfl
  rw [this, List.enum_map_snd]

theorem colours_length (g : Graph) : (colours g).length = (roster g).length := by
  rw [colours, List.length_map, List.enum_length]

theorem lookup_eq_some_of_mem_of_nodup_keys :
    ∀ (ps : List (String × String)), (ps.map Prod.fst).Nodup →
      ∀ (k v : String), (k, v) ∈ ps → ps.lookup k = some v := by
  intro ps
  induction ps with
  | nil => intro _ k v h; simp at h
  | cons p ps ih =>
    intro hnd k v hmem
    obtain ⟨a, b⟩ := p
    rw [List.map_cons, List.nodup_cons] at hnd
    rcases List.mem_cons.mp hmem with heq | htl
    · obtain ⟨hk, hv⟩ := Prod.mk.injEq .. ▸ heq
      simp only [List.lookup, hk]
      simp
      exact hv.symm ▸ rfl
    · have hk : k ≠ a := by
        intro hka
        apply hnd.1
        subst hka
        exact List.mem_map.mpr ⟨(k, v), htl, rfl⟩
      simp only [List.lookup, beq_eq_false_iff_ne.mpr hk]
      exact ih hnd.2 k v htl

theorem lookup_isSome_of_mem_keys :
    ∀ (ps : List (String × String)) (k : String),
      k ∈ ps.map Prod.fst → (ps.lookup k).isSome := by
  intro ps
  induction ps with
  | nil => intro k h; simp at h
  | cons p ps ih =>
    intro k h
    by_cases hk : k = p.1
    · simp [List.lookup, hk]
    · rw [List.map_cons, List.mem_cons] at h
      rcases h with h | h
      · exact absurd h hk
      · simpa [List.lookup, beq_eq_false_iff_ne.mpr hk] using ih k h

/- ### Structural lemmas about the builder folds -/

theorem DotBuilder.ext_lines {b₁ b₂ : DotBuilder} (h : b₁.lines = b₂.lines) : b₁ = b₂ := by
  cases b₁
  cases b₂
  cases h
  rfl

theorem DotBuilder.lines_add (b : DotBuilder) (s : String) :
    (b.add s).lines = b.lines ++ [s] := rfl

theorem foldl_add_lines {α : Type} (f : α → String) :
    ∀ (xs : List α) (b : DotBuilder),
      (xs.foldl (fun b x => b.add (f x)) b).lines = b.lines ++ xs.map f := by
  intro xs
  induction xs with
  | nil => intro b; simp
  | cons x xs ih =>
    intro b
    rw [List.foldl_cons, ih, List.map_cons]
    simp [DotBuilder.add]

theorem lookup_owner_eq_colourOf (g : Graph) (f : Function) (hf : f ∈ g.functions) :
    (colours g).lookup f.owner = some (colourOf g f) := by
  have hmem : f.owner ∈ (colours g).map Prod.fst := by
    rw [colours_map_fst]
    rw [mem_roster]
    exact List.mem_map.mpr ⟨f, hf, rfl⟩
  have hs := lookup_isSome_of_mem_keys (colours g) f.owner hmem
  obtain ⟨c, hc⟩ := Option.isSome_iff_exists.mp hs
  rw [hc, colourOf, hc]
  rfl

theorem addFunction_eq (g : Graph) (f : Function) (hf : f ∈ g.functions)
    (b : DotBuilder) :
    addFunction (colours g) b f = some ⟨b.lines ++ funSection g f⟩ := by
  rw [addFunction, lookup_owner_eq_colourOf g f hf, Option.map_some']
  congr 1
  apply DotBuilder.ext_lines
  show (List.foldl _ (List.foldl _ (DotBuilder.add b _) _) _).lines = _
  rw [foldl_add_lines (fun o => f.name ++ " -> " ++ o) _ _,
      foldl_add_lines (fun i => i ++ " -> " ++ f.name) _ _]
  simp [DotBuilder.add, funSection, edgeLines]

theorem foldlM_addFunction (g : Graph) :
    ∀ (fs : List Function), (∀ f ∈ fs, f ∈ g.functions) →
      ∀ (b : DotBuilder),
        fs.foldlM (addFunction (colours g)) b
          = some ⟨b.lines ++ (fs.map (funSection g)).flatten⟩ := by
  intro fs
  induction fs with
  | nil =>
    intro _ b
    simp
  | cons f fs ih =>
    intro hmem b
    rw [List.foldlM_cons, addFunction_eq g f (hmem f (List.mem_cons_self f fs)) b]
    show fs.foldlM (addFunction (colours g)) _ = _
    rw [ih (fun f' hf' => hmem f' (List.mem_cons_of_mem f hf')) _]
    simp

theorem legendFold_fst :
    ∀ (e : List (String × String)) (b : DotBuilder) (acc : String),
      (e.foldl legendStep (b, acc)).1.lines = b.lines ++ e.map legendNodeLine := by
  intro e
  induction e with
  | nil => intro b acc; simp
  | cons p e ih =>
    intro b acc
    rw [List.foldl_cons]
    show (e.foldl legendStep (DotBuilder.add b (legendNodeLine p), _)).1.lines = _
    rw [ih]
    simp [DotBuilder.add]

theorem legend_prefix_ne_empty (n : String) : ("legend_" ++ n : String) ≠ "" := by
  intro h
  have hd := congrArg String.data h
  rw [String.data_append] at hd
  have h7 : ("legend_" : String).data = ['l', 'e', 'g', 'e', 'n', 'd', '_'] := rfl
  rw [h7] at hd
  simp at hd

theorem step_chain_ne_empty (acc name : String) :
    (if acc = "" then acc else acc ++ "->") ++ "legend_" ++ name ≠ "" := by
  intro h
  have hd := congrArg String.data h
  rw [String.data_append, String.data_append] at hd
  have h7 : ("legend_" : String).data = ['l', 'e', 'g', 'e', 'n', 'd', '_'] := rfl
  rw [h7] at hd
  simp at hd

theorem legendFold_snd_ne :
    ∀ (e : List (String × String)) (b : DotBuilder) (acc : String), acc ≠ "" →
      (e.foldl legendStep (b, acc)).2 = acc ++ joinTail (chainPieces e) := by
  intro e
  induction e with
  | nil =>
    intro b acc _
    simp [chainPieces, joinTail]
  | cons p e ih =>
    intro b acc hacc
    rw [List.foldl_cons]
    show (e.foldl legendStep
      (_, (if acc = "" then acc else acc ++ "->") ++ "legend_" ++ p.1)).2 = _
    rw [ih _ _ (step_chain_ne_empty acc p.1), if_neg hacc]
    simp only [chainPieces, List.map_cons, joinTail]
    rw [String.append_assoc, String.append_assoc, String.append_assoc,
        String.append_assoc]

theorem legendFold_snd (e : List (String × String)) (b : DotBuilder) :
    (e.foldl legendStep (b, "")).2 = joinArrows (chainPieces e) := by
  cases e with
  | nil => simp [joinArrows, chainPieces]
  | cons p e =>
    rw [List.foldl_cons]
    show (e.foldl legendStep
      (_, (if ("" : String) = "" then "" else "" ++ "->") ++ "legend_" ++ p.1)).2 = _
    rw [if_pos rfl, String.empty_append]
    rw [legendFold_snd_ne e _ _ (legend_prefix_ne_empty p.1)]
    simp only [joinArrows, chainPieces, List.map_cons]

/-- The master closed form: `render` always succeeds and its output is
the header, then one legend node line per legend entry, then the
invisible chain statement, then the two (doubled-brace) closers. -/
theorem render_eq (g : Graph) (e : List (String × String)) :
    render g e = some (headerLines g
      ++ e.map legendNodeLine ++ [chainLine e, "\x7d\x7d", "\x7d\x7d"]) := by
  simp only [render]
  rw [foldlM_addFunction g g.functions (fun _ h => h)]
  simp only [Option.map_some']
  congr 1
  simp only [DotBuilder.lines_add]
  rw [legendFold_fst, legendFold_snd]
  rw [foldl_add_lines dataLine]
  simp [DotBuilder.lines_add, headerLines, chainLine, List.append_assoc]

theorem flatten_map_infix {α β : Type} (f : α → List β) :
    ∀ (l : List α) (a : α), a ∈ l →
      ∃ pre suf, (l.map f).flatten = pre ++ f a ++ suf := by
  intro l
  induction l with
  | nil => intro a h; simp at h
  | cons x l ih =>
    intro a h
    rcases List.mem_cons.mp h with heq | htl
    · exact ⟨[], (l.map f).flatten, by rw [heq]; simp⟩
    · obtain ⟨pre, suf, hps⟩ := ih a htl
      exact ⟨f x ++ pre, suf, by simp [hps, List.append_assoc]⟩

/- ### Counting the `->` arrows of the invisible chain -/

theorem countArrowsAux_cons_ne (a : Char) (t : List Char) (ha : a ≠ '-') :
    countArrowsAux (a :: t) = countArrowsAux t := by
  cases t with
  | nil => rfl
  | cons b r =>
    rw [countArrowsAux, if_neg (fun h : a = '-' ∧ b = '>' => ha h.1)]

theorem countArrowsAux_append_no_dash :
    ∀ (l₁ l₂ : List Char), (∀ c ∈ l₁, c ≠ '-') →
      countArrowsAux (l₁ ++ l₂) = countArrowsAux l₂ := by
  intro l₁
  induction l₁ with
  | nil => intro l₂ _; rfl
  | cons a l₁ ih =>
    intro l₂ h
    rw [List.cons_append,
        countArrowsAux_cons_ne a _ (h a (List.mem_cons_self a l₁))]
    exact ih l₂ (fun c hc => h c (List.mem_cons_of_mem a hc))

theorem countArrowsAux_no_dash (l : List Char) (h : ∀ c ∈ l, c ≠ '-') :
    countArrowsAux l = 0 := by
  have := countArrowsAux_append_no_dash l [] h
  simpa using this

theorem countArrowsAux_arrow (r : List Char) :
    countArrowsAux ('-' :: '>' :: r) = countArrowsAux r + 1 := by
  simp [countArrowsAux]

theorem countArrowsAux_joinTail :
    ∀ (pieces : List String) (suffix : List Char),
      (∀ s ∈ pieces, NoDash s) → (∀ c ∈ suffix, c ≠ '-') →
      countArrowsAux ((joinTail pieces).data ++ suffix) = pieces.length := by
  intro pieces
  induction pieces with
  | nil =>
    intro suffix _ hs
    show countArrowsAux ([] ++ suffix) = 0
    rw [List.nil_append]
    exact countArrowsAux_no_dash suffix hs
  | cons x rest ih =>
    intro suffix hp hs
    show countArrowsAux (("->" ++ (x ++ joinTail rest)).data ++ suffix) = rest.length + 1
    rw [String.data_append, String.data_append]
    have harrow : ("->" : String).data = ['-', '>'] := rfl
    rw [harrow]
    show countArrowsAux ('-' :: '>' :: (x.data ++ (joinTail rest).data ++ suffix)) = _
    rw [countArrowsAux_arrow, List.append_assoc,
        countArrowsAux_append_no_dash x.data _ (hp x (List.mem_cons_self x rest)),
        ih suffix (fun s hsm => hp s (List.mem_cons_of_mem x hsm)) hs]

theorem countArrows_joinArrows (pieces : List String) (suffix : String)
    (hp : ∀ s ∈ pieces, NoDash s) (hs : NoDash suffix) :
    countArrows (joinArrows pieces ++ suffix) = pieces.length - 1 := by
  cases pieces with
  | nil =>
    rw [countArrows, joinArrows, String.empty_append]
    exact countArrowsAux_no_dash suffix.data hs
  | cons x rest =>
    rw [countArrows, joinArrows, String.append_assoc, String.data_append]
    rw [countArrowsAux_append_no_dash x.data _ (hp x (List.mem_cons_self x rest))]
    rw [String.data_append]
    rw [countArrowsAux_joinTail rest suffix.data
      (fun s hsm => hp s (List.mem_cons_of_mem x hsm)) hs]
    rfl

theorem noDash_chainPiece (o : String) (h : NoDash o) : NoDash ("legend_" ++ o) := by
  intro c hc
  rw [String.data_append] at hc
  rcases List.mem_append.mp hc with hl | hr
  · have h7 : ("legend_" : String).data = ['l', 'e', 'g', 'e', 'n', 'd', '_'] := rfl
    rw [h7] at hl
    fin_cases hl <;> decide
  · exact h c hr

theorem countArrows_chainLine (e : List (String × String))
    (hnd : ∀ p ∈ e, NoDash p.1) :
    countArrows (chainLine e) = e.length - 1 := by
  rw [chainLine]
  rw [countArrows_joinArrows (chainPieces e) "[style=invis]" ?hp ?hs]
  · simp [chainPieces]
  · intro s hsm
    rw [chainPieces] at hsm
    obtain ⟨p, hp, hps⟩ := List.mem_map.mp hsm
    exact hps ▸ noDash_chainPiece p.1 (hnd p hp)
  · intro c hc
    have hsty : ("[style=invis]" : String).data
        = ['[', 's', 't', 'y', 'l', 'e', '=', 'i', 'n', 'v', 'i', 's', ']'] := rfl
    rw [hsty] at hc
    fin_cases hc <;> decide

/- ### The claims -/

/-- Claim C1: for every graph, the owner at position `i` (0-based) of the
roster (all owners, sorted lexicographically, deduplicated) is mapped by
the colour table to colour index `(i mod 8) + 1` (rendered in decimal). -/
theorem flux_c1 (g : Graph) (i : Nat) (o : String)
    (h : (roster g)[i]? = some o) :
    (colours g).lookup o = some (toString (i % NUM_COLOURS + 1)) := by
  apply lookup_eq_some_of_mem_of_nodup_keys
  · rw [colours_map_fst]
    exact roster_nodup g
  · rw [colours]
    exact List.mem_map.mpr ⟨(i, o), List.mk_mem_enum_iff_getElem?.mpr h, rfl⟩

/-- Claim C1 witness: in `gC1` the roster is `["a", "b"]`; position 1
holds `"b"`, which gets colour string `toString (1 % 8 + 1) = "2"`. -/
theorem flux_c1_witness :
    (roster gC1)[1]? = some "b"
      ∧ (colours gC1).lookup "b" = some (toString (1 % NUM_COLOURS + 1)) :=
  ⟨by decide, flux_c1 gC1 1 "b" (by decide)⟩

/-- Claim C2: the owner-to-colour table is a pure function of the set of
distinct owner strings: graphs whose functions carry the same set of
owners (any order, any duplication) get identical colour tables. -/
theorem flux_c2 (g₁ g₂ : Graph)
    (h : ∀ o, o ∈ g₁.functions.map Function.owner
      ↔ o ∈ g₂.functions.map Function.owner) :
    colours g₁ = colours g₂ := by
  rw [colours, colours, roster_eq_of_mem_iff g₁ g₂ h]

/-- Claim C2 witness: `gC2a` (owners `b, a`) and `gC2b` (owners
`a, b, a`) have the same owner set, hence the same colour table. -/
theorem flux_c2_witness : colours gC2a = colours gC2b :=
  flux_c2 gC2a gC2b (by
    intro o
    simp only [gC2a, gC2b, List.map_cons, List.map_nil, List.mem_cons,
      List.not_mem_nil]
    tauto)

/-- Claim C3 (code bug): the function-node line actually emitted is
`F[fillcolor="/dark28/1"=shape=ellipse=style=filled];` — the attributes
are sorted and joined with `=` instead of `,`, there is no space before
the bracket, and a trailing semicolon is appended — not the claimed
`F [shape=ellipse,style=filled,fillcolor="/dark28/1"]`. -/
theorem flux_c3 :
    render gC3 [("svc1", "1")] = some ["digraph G \x7b\x7b",
      "F[fillcolor=\"/dark28/1\"=shape=ellipse=style=filled];",
      "subgraph cluster_legend \x7b\x7b", "label=\"Legend\"", "rankdir=TB",
      "legend_svc1 [label=svc1,style=filled,fillcolor=1]",
      "legend_svc1[style=invis]", "\x7d\x7d", "\x7d\x7d"]
    ∧ functionNodeLine "F" "1"
      ≠ "F [shape=ellipse,style=filled,fillcolor=\"/dark28/1\"]" := by
  decide

/-- Claim C4 (code bug): the Rust source passes `"digraph G {{"`,
`"subgraph cluster_legend {{"` and `"}}"` to `DotBuilder::add` as plain
string literals (not `format!` templates), so the emitted first line is
`digraph G {{` with two braces, and the two closing lines are `}}` —
not the claimed single-brace forms. -/
theorem flux_c4 :
    render gC4 [] = some ["digraph G \x7b\x7b", "subgraph cluster_legend \x7b\x7b",
      "label=\"Legend\"", "rankdir=TB", "[style=invis]", "\x7d\x7d", "\x7d\x7d"]
    ∧ ("digraph G \x7b\x7b" : String) ≠ "digraph G \x7b"
    ∧ ("\x7d\x7d" : String) ≠ "\x7d" := by
  decide

/-- Claim C5 counterexample: the legend loop iterates a `HashMap`, whose
iteration order is unspecified; two runs that visit the same colour
table in different orders produce different output, so `render` is not
deterministic as claimed.  Both orders below are permutations of
`colours gC5`, yet the rendered lines differ. -/
theorem flux_c5_counterexample :
    List.Perm [("a", "1"), ("b", "2")] (colours gC5)
    ∧ List.Perm [("b", "2"), ("a", "1")] (colours gC5)
    ∧ render gC5 [("a", "1"), ("b", "2")] ≠ render gC5 [("b", "2"), ("a", "1")] := by
  decide

/-- Claim C5 amended: `render` is deterministic for a fixed legend
iteration order, and for two iteration orders of the same colour table
the outputs agree on everything outside the legend: the header (first
line, data nodes, function nodes, edges, legend opener) is identical,
the closers are identical, and the legend node lines of one run are a
permutation of the other's. -/
theorem flux_c5 (g : Graph) (e₁ e₂ : List (String × String)) (h : e₁.Perm e₂) :
    render g e₁ = some (headerLines g ++ e₁.map legendNodeLine
      ++ [chainLine e₁, "\x7d\x7d", "\x7d\x7d"])
    ∧ render g e₂ = some (headerLines g ++ e₂.map legendNodeLine
      ++ [chainLine e₂, "\x7d\x7d", "\x7d\x7d"])
    ∧ (e₁.map legendNodeLine).Perm (e₂.map legendNodeLine) :=
  ⟨render_eq g e₁, render_eq g e₂, h.map legendNodeLine⟩

/-- Claim C5 amended, witness: the two iteration orders of `colours gC5`
instantiate the amended claim. -/
theorem flux_c5_witness :
    render gC5 [("a", "1"), ("b", "2")]
      = some (headerLines gC5
        ++ ([("a", "1"), ("b", "2")] : List (String × String)).map legendNodeLine
        ++ [chainLine [("a", "1"), ("b", "2")], "\x7d\x7d", "\x7d\x7d"])
    ∧ render gC5 [("b", "2"), ("a", "1")]
      = some (headerLines gC5
        ++ ([("b", "2"), ("a", "1")] : List (String × String)).map legendNodeLine
        ++ [chainLine [("b", "2"), ("a", "1")], "\x7d\x7d", "\x7d\x7d"])
    ∧ (([("a", "1"), ("b", "2")] : List (String × String)).map legendNodeLine).Perm
        (([("b", "2"), ("a", "1")] : List (String × String)).map legendNodeLine) :=
  flux_c5 gC5 [("a", "1"), ("b", "2")] [("b", "2"), ("a", "1")] (by decide)

/-- Claim C6: for every function of the graph, `render` emits — as a
contiguous block right after the function's node line — exactly
`len(inputs) + len(outputs)` edge lines: `input -> name` for each input
in order, then `name -> output` for each output in order.  No
declaredness condition on the referenced identifiers is required. -/
theorem flux_c6 (g : Graph) (e : List (String × String)) (f : Function)
    (hf : f ∈ g.functions) (ls : List String) (hr : render g e = some ls) :
    (f.inputs.map (fun i => i ++ " -> " ++ f.name)
      ++ f.outputs.map (fun o => f.name ++ " -> " ++ o)).length
        = f.inputs.length + f.outputs.length
    ∧ ∃ pre suf, ls = pre ++ (functionNodeLine f.name (colourOf g f)
        :: (f.inputs.map (fun i => i ++ " -> " ++ f.name)
          ++ f.outputs.map (fun o => f.name ++ " -> " ++ o))) ++ suf := by
  have hls : ls = headerLines g ++ e.map legendNodeLine
      ++ [chainLine e, "\x7d\x7d", "\x7d\x7d"] :=
    Option.some_injective _ ((hr.symm).trans (render_eq g e))
  obtain ⟨pre, suf, hflat⟩ := flatten_map_infix (funSection g) g.functions f hf
  constructor
  · simp
  · refine ⟨"digraph G \x7b\x7b" :: (g.data.map dataLine ++ pre),
      suf ++ ["subgraph cluster_legend \x7b\x7b", "label=\"Legend\"", "rankdir=TB"]
        ++ e.map legendNodeLine ++ [chainLine e, "\x7d\x7d", "\x7d\x7d"], ?_⟩
    rw [hls, headerLines, hflat]
    simp only [funSection, edgeLines]
    simp [List.append_assoc]

/-- Claim C6 witness: in `gC6`, function `F` (one input `A`, one output
`X`, with `X` declared nowhere) contributes the contiguous block
`F[...]; A -> F; F -> X` — two edge lines, `X` emitted verbatim. -/
theorem flux_c6_witness :
    (fC6.inputs.map (fun i => i ++ " -> " ++ fC6.name)
      ++ fC6.outputs.map (fun o => fC6.name ++ " -> " ++ o)).length
        = fC6.inputs.length + fC6.outputs.length
    ∧ ∃ pre suf, lsC6 = pre ++ (functionNodeLine fC6.name (colourOf gC6 fC6)
        :: (fC6.inputs.map (fun i => i ++ " -> " ++ fC6.name)
          ++ fC6.outputs.map (fun o => fC6.name ++ " -> " ++ o))) ++ suf :=
  flux_c6 gC6 [("svc1", "1")] fC6 (by decide) lsC6 (by decide)

/-- Claim C7 (code bug): the legend node line carries the bare colour
index.  The `colours` map stores plain digit strings (the scheme-wrapped
variant is commented out in the source), and the legend loop
interpolates that value directly, so the emitted line is
`legend_svc1 [label=svc1,style=filled,fillcolor=1]`, not a
`"/dark28/n"` colour-scheme reference as claimed. -/
theorem flux_c7 :
    legendNodeLine ("svc1", "1") = "legend_svc1 [label=svc1,style=filled,fillcolor=1]"
    ∧ (colours gC7).lookup "svc1" = some "1"
    ∧ render gC7 [("svc1", "1")] = some ["digraph G \x7b\x7b",
        "G1[fillcolor=\"/dark28/1\"=shape=ellipse=style=filled];",
        "subgraph cluster_legend \x7b\x7b", "label=\"Legend\"", "rankdir=TB",
        "legend_svc1 [label=svc1,style=filled,fillcolor=1]",
        "legend_svc1[style=invis]", "\x7d\x7d", "\x7d\x7d"]
    ∧ legendNodeLine ("svc1", "1")
      ≠ "legend_svc1 [label=svc1,style=filled,fillcolor=\"/dark28/1\"]" := by
  decide

/-- Claim C8: for any legend iteration order (a permutation of the
colour table), the legend holds exactly one node line per distinct
owner — the entry keys are duplicate-free and are exactly the owners
appearing in the graph, and their count equals the roster length, the
number of distinct owners — and for owner names without `'-'` the chain
statement holds exactly `max(distinct_owner_count - 1, 0)` arrows
(truncated natural subtraction). -/
theorem flux_c8 (g : Graph) (e : List (String × String)) (h : e.Perm (colours g))
    (ls : List String) (hr : render g e = some ls) :
    ls = headerLines g ++ e.map legendNodeLine ++ [chainLine e, "\x7d\x7d", "\x7d\x7d"]
    ∧ e.length = (roster g).length
    ∧ (roster g).length = (g.functions.map Function.owner).toFinset.card
    ∧ (e.map Prod.fst).Nodup
    ∧ (∀ o, o ∈ e.map Prod.fst ↔ o ∈ g.functions.map Function.owner)
    ∧ ((∀ p ∈ e, NoDash p.1) →
        countArrows (chainLine e) = (roster g).length - 1) := by
  have hlen : e.length = (roster g).length := by
    rw [h.length_eq, colours_length]
  have hfst : (e.map Prod.fst).Perm (roster g) := by
    have hm := h.map Prod.fst
    rwa [colours_map_fst] at hm
  refine ⟨Option.some_injective _ ((hr.symm).trans (render_eq g e)), hlen,
    roster_length_eq_card g, ?_, ?_, ?_⟩
  · exact hfst.nodup_iff.mpr (roster_nodup g)
  · intro o
    rw [hfst.mem_iff, mem_roster]
  · intro hnd
    rw [countArrows_chainLine e hnd, hlen]

/-- Claim C8 witness: `gC8` has two distinct owners; iterating the
colour table in the non-sorted order `b, a` yields two legend node
lines and one chain arrow. -/
theorem flux_c8_witness :
    lsC8 = headerLines gC8
      ++ ([("b", "2"), ("a", "1")] : List (String × String)).map legendNodeLine
      ++ [chainLine [("b", "2"), ("a", "1")], "\x7d\x7d", "\x7d\x7d"]
    ∧ ([("b", "2"), ("a", "1")] : List (String × String)).length = (roster gC8).length
    ∧ (roster gC8).length = (gC8.functions.map Function.owner).toFinset.card
    ∧ (([("b", "2"), ("a", "1")] : List (String × String)).map Prod.fst).Nodup
    ∧ (∀ o, o ∈ ([("b", "2"), ("a", "1")] : List (String × String)).map Prod.fst
        ↔ o ∈ gC8.functions.map Function.owner)
    ∧ ((∀ p ∈ ([("b", "2"), ("a", "1")] : List (String × String)), NoDash p.1) →
        countArrows (chainLine [("b", "2"), ("a", "1")]) = (roster gC8).length - 1) :=
  flux_c8 gC8 [("b", "2"), ("a", "1")] (by decide) lsC8 (by decide)

/-- Claim C9: colour lookup never panics: every function's owner is a
key of the colour table (whose keys are exactly the owners of the
graph's functions), and `render` succeeds on every graph and legend
order (the `Option` result is always `some`; the only failure the model
admits is the lookup panic). -/
theorem flux_c9 (g : Graph) (e : List (String × String)) :
    (∀ f ∈ g.functions, ((colours g).lookup f.owner).isSome)
    ∧ (∀ o, o ∈ (colours g).map Prod.fst ↔ o ∈ g.functions.map Function.owner)
    ∧ (render g e).isSome := by
  refine ⟨?_, ?_, ?_⟩
  · intro f hf
    rw [lookup_owner_eq_colourOf g f hf]
    rfl
  · intro o
    rw [colours_map_fst]
    exact mem_roster g o
  · rw [render_eq g e]
    rfl

/-- Claim C10: with zero functions `render` still emits the bare line
`[style=invis]`, and with exactly one distinct owner it emits
`legend_<owner>[style=invis]` — a node statement with no arrow (the
arrow count of the chain line is 0 when there are at most 1 owners). -/
theorem flux_c10 (g : Graph) (e : List (String × String)) (h : e.Perm (colours g)) :
    (g.functions = [] →
      render g e = some (headerLines g ++ ["[style=invis]", "\x7d\x7d", "\x7d\x7d"]))
    ∧ (∀ o, roster g = [o] →
      render g e = some (headerLines g ++ e.map legendNodeLine
        ++ ["legend_" ++ o ++ "[style=invis]", "\x7d\x7d", "\x7d\x7d"]))
    ∧ ((∀ p ∈ e, NoDash p.1) → (roster g).length ≤ 1 →
        countArrows (chainLine e) = 0) := by
  refine ⟨?_, ?_, ?_⟩
  · intro hfn
    have hcol : colours g = [] := by
      rw [colours, roster, hfn]
      rfl
    have he : e = [] := by
      have hp := h
      rw [hcol] at hp
      exact hp.eq_nil
    subst he
    simpa using render_eq g []
  · intro o hros
    have hcol : colours g = [(o, "1")] := by
      rw [colours, hros]
      have henum : ([o] : List String).enum = [(0, o)] := rfl
      rw [henum, List.map_cons, List.map_nil]
      have h1 : toString (0 % NUM_COLOURS + 1) = "1" := by decide
      rw [h1]
    have he : e = [(o, "1")] := by
      have hp := h
      rw [hcol] at hp
      exact List.perm_singleton.mp hp
    subst he
    rw [render_eq g [(o, "1")]]
    have hchain : chainLine [(o, "1")] = "legend_" ++ o ++ "[style=invis]" := by
      rw [chainLine, chainPieces]
      simp [joinArrows, joinTail, String.append_empty]
    rw [hchain]
  · intro hnd hlen
    rw [countArrows_chainLine e hnd, h.length_eq, colours_length]
    omega

/-- Claim C10 witness: `gC10` has the single owner `svc1`; with the only
possible iteration order the chain line is `legend_svc1[style=invis]`
and carries zero arrows. -/
theorem flux_c10_witness :
    (gC10.functions = [] →
      render gC10 [("svc1", "1")]
        = some (headerLines gC10 ++ ["[style=invis]", "\x7d\x7d", "\x7d\x7d"]))
    ∧ (∀ o, roster gC10 = [o] →
      render gC10 [("svc1", "1")]
        = some (headerLines gC10
          ++ ([("svc1", "1")] : List (String × String)).map legendNodeLine
          ++ ["legend_" ++ o ++ "[style=invis]", "\x7d\x7d", "\x7d\x7d"]))
    ∧ ((∀ p ∈ ([("svc1", "1")] : List (String × String)), NoDash p.1) →
        (roster gC10).length ≤ 1 →
        countArrows (chainLine [("svc1", "1")]) = 0) :=
  flux_c10 gC10 [("svc1", "1")] (by decide)

end Flux
